import Mathlib

/-!
Verification of the subsistence-diet linear-program pipeline
(`solve_subsistence_problem` and its surrounding notebook code).

The pandas objects are embedded as association lists keyed by `String`:
a `Series` is an ordered list of key/value pairs (keys may repeat, as in
pandas), a data frame is a list of rows (key and a cell function) together
with an ordered column list, and a missing cell (`NaN`) is `Option.none`.
Rational numbers stand in for the floating-point values of the source.
-/

namespace DietLP

abbrev Key := String

/-- A pandas `Series`: an ordered association list (duplicate keys allowed). -/
abbrev Series (V : Type) := List (Key × V)

/-- One row of a data frame: the cell value for each column key; `none` is NaN. -/
abbrev RowFun := Key → Option ℚ

/-- The rows of a data frame (row key together with its cells). -/
abbrev Rows := List (Key × RowFun)

/-- A pandas `DataFrame`: rows (nutrients) by columns (goods). -/
structure DataFrame where
  rows : Rows
  cols : List Key

def seriesKeys {V : Type} (s : Series V) : List Key := s.map Prod.fst

def rowKeys (rs : Rows) : List Key := rs.map Prod.fst

/-- `pandas.Index` values in first-occurrence order with duplicates removed. -/
def uniqueFirst : List Key → List Key
  | [] => []
  | k :: ks => k :: (uniqueFirst ks).filter (fun x => decide (x ≠ k))

/-- `self.intersection(other)` on indexes: unique values of `self` that occur
in `other`, in `self` order (pandas default `sort=False`). -/
def indexIntersection (self other : List Key) : List Key :=
  (uniqueFirst self).filter (fun k => decide (k ∈ other))

/-- `Series.dropna()`: keep only the entries whose value is defined. -/
def dropna (s : Series (Option ℚ)) : Series ℚ :=
  s.filterMap (fun kv => kv.2.map (fun v => (kv.1, v)))

/-- Label-based selection `s[ks]`: for each requested key, every entry of `s`
carrying that key, in the requested order. -/
def selectAll {V : Type} (s : Series V) (ks : List Key) : Series V :=
  ks.flatMap (fun k => s.filter (fun kv => decide (kv.1 = k)))

/-- The row of `rs` labelled `k` (first match), or an all-NaN row. -/
def lookupRow (rs : Rows) (k : Key) : RowFun :=
  match rs.find? (fun r => decide (r.1 = k)) with
  | some r => r.2
  | none => fun _ => none

/-- `DataFrame.fillna(0)` applied to every row: NaN cells become `0`. -/
def fillna0 (rs : Rows) : Rows :=
  rs.map (fun r => (r.1, fun c => some ((r.2 c).getD 0)))

/-- Negate every cell of a row (`-Amax`); NaN stays NaN. -/
def negRow (f : RowFun) : RowFun := fun c => (f c).map Neg.neg

def negRows (rs : Rows) : Rows := rs.map (fun r => (r.1, negRow r.2))

/-- `df.reindex(target, axis=0)`: identical index is returned unchanged;
a unique index is rearranged against `target`, labels absent from the frame
yielding all-NaN rows; reindexing a non-unique index is an error. -/
def reindexRows (rs : Rows) (target : List Key) : Except String Rows :=
  if rowKeys rs = target then .ok rs
  else if (rowKeys rs).Nodup then
    .ok (target.map (fun k => (k, lookupRow rs k)))
  else .error ("cannot reindex on an axis with duplicate entries")

/-- `df.reindex(target, axis=1)`: same contract as `reindexRows`, columnwise.
Cells of columns absent from the original frame become NaN. -/
def reindexCols (cols : List Key) (rs : Rows) (target : List Key) :
    Except String (List Key × Rows) :=
  if cols = target then .ok (cols, rs)
  else if cols.Nodup then
    .ok (target, rs.map (fun r => (r.1, fun c => if c ∈ cols then r.2 c else none)))
  else .error ("cannot reindex on an axis with duplicate entries")

/-- `A.loc[k] = v`: overwrite every row labelled `k` with the constant row `v`,
or append a new constant row when the label is absent. -/
def setRowAll (rs : Rows) (k : Key) (v : ℚ) : Rows :=
  if k ∈ rowKeys rs then
    rs.map (fun r => if r.1 = k then (r.1, fun _ => some v) else r)
  else rs ++ [(k, fun _ => some v)]

/-- `b.loc[k] = v` on a series: overwrite every entry labelled `k`, or append. -/
def setVal (s : Series ℚ) (k : Key) (v : ℚ) : Series ℚ :=
  if k ∈ seriesKeys s then
    s.map (fun kv => if kv.1 = k then (kv.1, v) else kv)
  else s ++ [(k, v)]

/-- The assembled linear program: cost series `p`, column order, constraint
matrix `A` (in the `A x ≥ b` orientation of the source) and bound series `b`. -/
structure BuiltLP where
  p : Series ℚ
  cols : List Key
  A : Rows
  b : Series ℚ

/-- The problem-building phase of `solve_subsistence_problem`, step for step:
drop unpriced goods, intersect with the catalogue columns, fill missing
nutrient cells with zero, stack the minimum rows and the negated maximum rows,
reindex everything into a mutually consistent order, and optionally add the
total-weight row labelled `"Hectograms"`. -/
def build (FoodNutrients : DataFrame) (Prices : Series (Option ℚ))
    (dietmin dietmax : Series ℚ) (max_weight : Option ℚ) :
    Except String BuiltLP := do
  let p0 := dropna Prices
  let use := indexIntersection (seriesKeys p0) FoodNutrients.cols
  let p := selectAll p0 use
  let pcols := seriesKeys p
  let Aall : Rows := fillna0 FoodNutrients.rows
  let Amin0 := selectAll Aall (indexIntersection (rowKeys Aall) (seriesKeys dietmin))
  let Amin ← reindexRows Amin0 (seriesKeys dietmin)
  let Amax0 := selectAll Aall (indexIntersection (rowKeys Aall) (seriesKeys dietmax))
  let Amax ← reindexRows Amax0 (seriesKeys dietmax)
  let A1 : Rows := Amin ++ negRows Amax
  let b1 : Series ℚ := dietmin ++ dietmax.map (fun kv => (kv.1, -kv.2))
  let cA2 ← reindexCols pcols A1 pcols
  let A3 ← reindexRows cA2.2 (seriesKeys b1)
  let Ab :=
    match max_weight with
    | none => (A3, b1)
    | some w => (setRowAll A3 ("Hectograms") (-1), setVal b1 ("Hectograms") (-w))
  .ok { p := p, cols := cA2.1, A := Ab.1, b := Ab.2 }

/-! ### Solver adapter

`scipy.optimize.linprog` is an external backend.  We model it as an abstract
function from the handed arrays `(c, A_ub, b_ub)` to a result record; the
adapter code around the call (`lp(p, -A, -b)`, the attachment of `A`, `b` and
`diet`, and the NaN fill of the diet on failure) is embedded faithfully. -/

/-- The record returned by the `linprog` backend. -/
structure LPResult where
  success : Bool
  status : ℕ
  message : String
  x : List ℚ
  objVal : ℚ

/-- An abstract `linprog`-style backend: cost vector, upper-bound matrix
(cells may be NaN) and upper-bound vector, under `A_ub x ≤ b_ub`, `x ≥ 0`. -/
abbrev Backend := List ℚ → List (List (Option ℚ)) → List ℚ → LPResult

/-- The cost array handed to the backend: the values of `p`. -/
def lpCost (inst : BuiltLP) : List ℚ := inst.p.map Prod.snd

/-- The matrix handed to the backend: `-A`, densified in column order. -/
def lpAub (inst : BuiltLP) : List (List (Option ℚ)) :=
  inst.A.map (fun r => inst.cols.map (fun c => (r.2 c).map Neg.neg))

/-- The bound array handed to the backend: `-b`. -/
def lpBub (inst : BuiltLP) : List ℚ := inst.b.map (fun kv => -kv.2)

/-- The annotated result of `solve_subsistence_problem`. -/
structure Outcome where
  success : Bool
  message : String
  x : List ℚ
  objVal : ℚ
  diet : Series (Option ℚ)
  A : Rows
  b : Series ℚ

/-- The solving phase: call the backend on `(p, -A, -b)`, attach `A` and `b`,
and attach the diet series — the raw solution on success, the solution
multiplied by NaN (hence all-NaN) on failure. -/
def solveWith (bk : Backend) (inst : BuiltLP) : Outcome :=
  let r := bk (lpCost inst) (lpAub inst) (lpBub inst)
  let diet : Series (Option ℚ) :=
    if r.success then (seriesKeys inst.p).zip (r.x.map some)
    else (seriesKeys inst.p).zip (r.x.map (fun _ => none))
  { success := r.success, message := r.message, x := r.x, objVal := r.objVal,
    diet := diet, A := inst.A, b := inst.b }

/-- The whole pipeline `solve_subsistence_problem`: build, then solve. -/
def solve_subsistence_problem (bk : Backend) (FoodNutrients : DataFrame)
    (Prices : Series (Option ℚ)) (dietmin dietmax : Series ℚ)
    (max_weight : Option ℚ) : Except String Outcome :=
  (build FoodNutrients Prices dietmin dietmax max_weight).map (solveWith bk)

/-! ### Linear-program semantics

Rational-valued semantics of the assembled program.  A NaN coefficient makes
the row's value undefined, and an undefined value satisfies no inequality
(mirroring IEEE comparisons with NaN being false). -/

/-- Dot product of two rational vectors (positionwise, like `numpy`). -/
def dotQ (u v : List ℚ) : ℚ := (List.zipWith (fun a x => a * x) u v).sum

/-- NaN-propagating dot product of a possibly-undefined row with `x`. -/
def optDot : List (Option ℚ) → List ℚ → Option ℚ
  | a :: u, x :: xs => (optDot u xs).bind (fun s => a.map (fun q => q * x + s))
  | _, _ => some 0

/-- A possibly-undefined value is `≤ c`: it is defined and at most `c`. -/
def optLE (a : Option ℚ) (c : ℚ) : Prop := ∃ v, a = some v ∧ v ≤ c

/-- A possibly-undefined value is `≥ c`: it is defined and at least `c`. -/
def optGE (a : Option ℚ) (c : ℚ) : Prop := ∃ v, a = some v ∧ c ≤ v

def nonnegVec (x : List ℚ) : Prop := ∀ xi ∈ x, 0 ≤ xi

/-- The value of a constraint row at `x`, in the built column order. -/
def rowVal (cols : List Key) (f : RowFun) (x : List ℚ) : Option ℚ :=
  optDot (cols.map f) x

/-- Feasibility of `x` for the system actually handed to the backend:
`(-A) x ≤ (-b)` together with `x ≥ 0` (the backend's `≤` orientation). -/
def scipyFeasible (inst : BuiltLP) (x : List ℚ) : Prop :=
  x.length = inst.cols.length ∧ nonnegVec x ∧
    List.Forall₂ (fun row c => optLE (optDot row x) c) (lpAub inst) (lpBub inst)

/-- Feasibility for the canonical problem in the spec's words:
`constraintMatrix · x ≥ constraintBounds` and `x ≥ 0`. -/
def canonFeasible (inst : BuiltLP) (x : List ℚ) : Prop :=
  x.length = inst.cols.length ∧ nonnegVec x ∧
    List.Forall₂ (fun r kv => optGE (rowVal inst.cols r.2 x) kv.2) inst.A inst.b

/-- `x` minimizes `p · x` over the backend-orientation feasible set. -/
def IsOptimalScipy (inst : BuiltLP) (x : List ℚ) : Prop :=
  scipyFeasible inst x ∧
    ∀ y, scipyFeasible inst y → dotQ (lpCost inst) x ≤ dotQ (lpCost inst) y

/-- `x` minimizes `cost · x` over the canonical feasible set. -/
def IsOptimalCanon (inst : BuiltLP) (x : List ℚ) : Prop :=
  canonFeasible inst x ∧
    ∀ y, canonFeasible inst y → dotQ (lpCost inst) x ≤ dotQ (lpCost inst) y

/-- Feasibility of `x` for a raw backend call `(c, A_ub, b_ub)` under the
backend's own contract `A_ub x ≤ b_ub`, `x ≥ 0`, `len x = len c`. -/
def leFeasible (n : ℕ) (Aub : List (List (Option ℚ))) (bub : List ℚ)
    (x : List ℚ) : Prop :=
  x.length = n ∧ nonnegVec x ∧
    List.Forall₂ (fun row c => optLE (optDot row x) c) Aub bub

/-- A backend is sound when it only reports success on calls that actually
admit a feasible point. -/
def SoundBackend (bk : Backend) : Prop :=
  ∀ c Aub bub, (bk c Aub bub).success = true →
    ∃ x, leFeasible c.length Aub bub x

/-! ### Diagnostics

`tab = DataFrame({"Outcome": np.abs(A).dot(diet), "Recommendation": np.abs(b)})`,
`excess = tab.diff(axis=1).iloc[:,1]`, and the binding constraints are the
labels with `np.abs(excess) < tol`.  A NaN outcome compares as false. -/

/-- The realized outcome of one constraint row: `|row| · x` (NaN propagates). -/
def absRowVal (cols : List Key) (f : RowFun) (x : List ℚ) : Option ℚ :=
  optDot (cols.map (fun c => (f c).map (fun q => |q|))) x

/-- The diagnostics table: per constraint label, realized outcome
`|A| · x` and recommendation `|b|`. -/
def outcomeTab (inst : BuiltLP) (x : List ℚ) : List (Key × Option ℚ × ℚ) :=
  List.zipWith (fun r kv => (r.1, absRowVal inst.cols r.2 x, |kv.2|)) inst.A inst.b

/-- The labels the diagnostics step reports as binding: those whose excess
`Recommendation - Outcome` has absolute value below `tol`. -/
def bindingConstraints (inst : BuiltLP) (x : List ℚ) (tol : ℚ) : List Key :=
  ((outcomeTab inst x).filter (fun t =>
      match t.2.1 with
      | some out => decide (|t.2.2 - out| < tol)
      | none => false)).map (fun t => t.1)

/-! ### Derived closed forms used to state the theorems -/

/-- A generic lookup on association lists, with a default. -/
def lookupD {V : Type} (s : Series V) (k : Key) (d : V) : V :=
  match s.find? (fun kv => decide (kv.1 = k)) with
  | some kv => kv.2
  | none => d

/-- The zero-filled nutrient row of the catalogue for nutrient `k` (an
all-NaN row when `k` is not a catalogue row). -/
def filledRow (FN : DataFrame) (k : Key) : RowFun :=
  lookupRow (fillna0 FN.rows) k

/-- Closed form of the nutrient block of the built matrix: one yield row per
minimum bound, then one negated yield row per maximum bound. -/
def coreRows (FN : DataFrame) (dietmin dietmax : Series ℚ) : Rows :=
  (seriesKeys dietmin).map (fun k => (k, filledRow FN k)) ++
    (seriesKeys dietmax).map (fun k => (k, negRow (filledRow FN k)))

/-- Closed form of the nutrient block of the built bound series. -/
def coreB (dietmin dietmax : Series ℚ) : Series ℚ :=
  dietmin ++ dietmax.map (fun kv => (kv.1, -kv.2))

/-- The usable good set: priced goods (in price order) that are catalogue
columns. -/
def usableKeys (Prices : Series (Option ℚ)) (cols : List Key) : List Key :=
  indexIntersection (seriesKeys (dropna Prices)) cols

/-- Closed form of the built cost series. -/
def builtP (Prices : Series (Option ℚ)) (cols : List Key) : Series ℚ :=
  selectAll (dropna Prices) (usableKeys Prices cols)

/-- The human-meaningful binding test for one bound entry: the realized
nutrient outcome (zero-filled yield row dotted with the diet) is within `tol`
of the bound in its original magnitude; an undefined outcome never binds. -/
def bindsAt (FN : DataFrame) (cols : List Key) (x : List ℚ) (tol : ℚ)
    (kv : Key × ℚ) : Bool :=
  match optDot (cols.map (filledRow FN kv.1)) x with
  | some out => decide (|kv.2 - out| < tol)
  | none => false

/-! ### The concrete two-good scenario -/

/-- Catalogue of the concrete scenario: good `A` yields 10 units of nutrient
`N` per unit, good `B` yields 5. -/
def scenarioFN : DataFrame :=
  { rows := [(("N" : Key), fun g =>
      if g = "A" then some (10 : ℚ) else
      if g = "B" then some (5 : ℚ) else none)],
    cols := [("A" : Key), ("B" : Key)] }

/-- Prices of the concrete scenario: `A` costs 1.0 per unit, `B` costs 2.0. -/
def scenarioPrices : Series (Option ℚ) :=
  [(("A" : Key), some (1 : ℚ)), (("B" : Key), some (2 : ℚ))]

/-- The zero-filled yield row of nutrient `N` in the scenario catalogue. -/
def scenarioYield : RowFun := fun c =>
  if c = "A" then some (10 : ℚ) else
  if c = "B" then some (5 : ℚ) else some 0

/-- The instance the builder assembles for the scenario with minimum 20. -/
def scenarioInst : BuiltLP :=
  { p := [(("A" : Key), (1 : ℚ)), (("B" : Key), (2 : ℚ))],
    cols := [("A" : Key), ("B" : Key)],
    A := [(("N" : Key), scenarioYield)],
    b := [(("N" : Key), (20 : ℚ))] }

/-- The instance the builder assembles for minimum 1000 with cap 1. -/
def scenarioInst2 : BuiltLP :=
  { p := [(("A" : Key), (1 : ℚ)), (("B" : Key), (2 : ℚ))],
    cols := [("A" : Key), ("B" : Key)],
    A := [(("N" : Key), scenarioYield),
          (("Hectograms" : Key), fun _ => some (-1 : ℚ))],
    b := [(("N" : Key), (1000 : ℚ)), (("Hectograms" : Key), (-1 : ℚ))] }

/-! ### Basic lemmas about the pandas embedding -/

theorem mem_uniqueFirst {k : Key} : ∀ {l : List Key}, k ∈ uniqueFirst l ↔ k ∈ l
  | [] => by simp [uniqueFirst]
  | a :: l => by
    by_cases hka : k = a
    · subst hka; simp [uniqueFirst]
    · simp only [uniqueFirst, List.mem_cons, List.mem_filter, decide_eq_true_eq]
      constructor
      · rintro (h | ⟨h, -⟩)
        · exact absurd h hka
        · exact Or.inr (mem_uniqueFirst.mp h)
      · rintro (h | h)
        · exact absurd h hka
        · exact Or.inr ⟨mem_uniqueFirst.mpr h, hka⟩

theorem uniqueFirst_nodup : ∀ (l : List Key), (uniqueFirst l).Nodup
  | [] => by simp [uniqueFirst]
  | a :: l => by
    simp only [uniqueFirst, List.nodup_cons]
    refine ⟨fun hmem => ?_, (uniqueFirst_nodup l).filter _⟩
    have := (List.mem_filter.mp hmem).2
    simp at this

theorem uniqueFirst_eq_self : ∀ {l : List Key}, l.Nodup → uniqueFirst l = l
  | [], _ => rfl
  | a :: l, h => by
    obtain ⟨ha, hl⟩ := List.nodup_cons.mp h
    simp only [uniqueFirst, uniqueFirst_eq_self hl]
    rw [List.filter_eq_self.mpr]
    intro x hx
    simp only [decide_eq_true_eq]
    exact fun hxa => ha (hxa ▸ hx)

theorem mem_indexIntersection {k : Key} {s o : List Key} :
    k ∈ indexIntersection s o ↔ k ∈ s ∧ k ∈ o := by
  simp [indexIntersection, List.mem_filter, mem_uniqueFirst]

theorem indexIntersection_nodup (s o : List Key) :
    (indexIntersection s o).Nodup :=
  (uniqueFirst_nodup s).filter _

theorem lookupRow_eq_lookupD (rs : Rows) (k : Key) :
    lookupRow rs k = lookupD rs k (fun _ => none) := by
  unfold lookupRow lookupD
  cases h : rs.find? (fun r => decide (r.1 = k)) <;> simp

theorem find?_key_eq_none {V : Type} {s : Series V} {k : Key}
    (h : k ∉ seriesKeys s) : s.find? (fun kv => decide (kv.1 = k)) = none := by
  rw [List.find?_eq_none]
  rintro ⟨k', v⟩ hmem hk
  exact h (by simpa using (by simpa using hk) ▸ List.mem_map_of_mem Prod.fst hmem)

theorem lookupD_of_not_mem {V : Type} {s : Series V} {k : Key} {d : V}
    (h : k ∉ seriesKeys s) : lookupD s k d = d := by
  unfold lookupD
  rw [find?_key_eq_none h]

theorem lookupD_cons_self {V : Type} (k : Key) (v : V) (s : Series V) (d : V) :
    lookupD ((k, v) :: s) k d = v := by
  unfold lookupD
  simp [List.find?_cons]

theorem lookupD_cons_ne {V : Type} {k' k : Key} (v : V) (s : Series V) (d : V)
    (h : k' ≠ k) : lookupD ((k', v) :: s) k d = lookupD s k d := by
  unfold lookupD
  simp [List.find?_cons, h]

theorem filter_key_of_not_mem {V : Type} {s : Series V} {k : Key}
    (h : k ∉ seriesKeys s) : s.filter (fun kv => decide (kv.1 = k)) = [] := by
  rw [List.filter_eq_nil_iff]
  rintro ⟨k', v⟩ hmem
  simp only [decide_eq_true_eq]
  intro hk
  exact h (hk ▸ List.mem_map_of_mem Prod.fst hmem)

/-- In an association list with distinct keys, filtering on a present key
yields exactly the singleton carrying that key's value. -/
theorem filter_key_of_nodup {V : Type} (d : V) :
    ∀ (s : Series V), (seriesKeys s).Nodup → ∀ k : Key, k ∈ seriesKeys s →
      s.filter (fun kv => decide (kv.1 = k)) = [(k, lookupD s k d)]
  | [], _, k, hk => by simp [seriesKeys] at hk
  | (k', v) :: s, h, k, hk => by
    obtain ⟨hk', hs⟩ := List.nodup_cons.mp h
    by_cases hkk : k' = k
    · subst hkk
      have hnot : k' ∉ seriesKeys s := hk'
      rw [List.filter_cons, lookupD_cons_self]
      simp only [decide_eq_true_eq, if_pos rfl]
      rw [filter_key_of_not_mem hnot]
      simp
    · have hk2 : k ∈ seriesKeys s := by
        simp only [seriesKeys, List.map_cons, List.mem_cons] at hk
        exact hk.resolve_left (fun he => hkk he.symm)
      rw [List.filter_cons, lookupD_cons_ne v s d hkk]
      simp only [decide_eq_true_eq, if_neg hkk]
      exact filter_key_of_nodup d s hs k hk2

/-- Selection by a list of keys from a distinct-keyed association list is the
pointwise lookup of each requested (and present) key. -/
theorem selectAll_eq_map {V : Type} (d : V) (s : Series V)
    (hs : (seriesKeys s).Nodup) (ks : List Key)
    (hks : ∀ k ∈ ks, k ∈ seriesKeys s) :
    selectAll s ks = ks.map (fun k => (k, lookupD s k d)) := by
  induction ks with
  | nil => rfl
  | cons k ks ih =>
    simp only [selectAll, List.flatMap_cons] at *
    rw [filter_key_of_nodup d s hs k (hks k (List.mem_cons_self k ks)),
      ih (fun j hj => hks j (List.mem_cons_of_mem k hj))]
    rfl

theorem seriesKeys_map_fst {V : Type} (ks : List Key) (g : Key → V) :
    seriesKeys (ks.map (fun k => (k, g k))) = ks := by
  induction ks with
  | nil => rfl
  | cons a ks ih => simp only [seriesKeys, List.map_cons] at *; rw [ih]

theorem lookupD_map_keys {V : Type} (d : V) (ks : List Key) (g : Key → V)
    (k : Key) :
    lookupD (ks.map (fun j => (j, g j))) k d = if k ∈ ks then g k else d := by
  induction ks with
  | nil => simp [lookupD]
  | cons a ks ih =>
    simp only [List.map_cons]
    by_cases hka : a = k
    · subst hka
      rw [lookupD_cons_self, if_pos (List.mem_cons_self a ks)]
    · rw [lookupD_cons_ne (g a) _ d hka, ih]
      by_cases hk : k ∈ ks
      · rw [if_pos hk, if_pos (List.mem_cons_of_mem a hk)]
      · rw [if_neg hk,
          if_neg (fun hc => (List.mem_cons.mp hc).elim (fun h => hka h.symm) hk)]

/-! ### Collapsing the builder into closed form -/

theorem rowKeys_fillna0 (rs : Rows) : rowKeys (fillna0 rs) = rowKeys rs := by
  simp [rowKeys, fillna0, List.map_map]

theorem lookupRow_of_not_mem {rs : Rows} {k : Key} (h : k ∉ rowKeys rs) :
    lookupRow rs k = fun _ => none := by
  rw [lookupRow_eq_lookupD]
  exact lookupD_of_not_mem h

theorem reindexRows_of_eq {rs : Rows} {target : List Key}
    (h : rowKeys rs = target) : reindexRows rs target = .ok rs := by
  unfold reindexRows
  rw [if_pos h]

theorem reindexCols_self (cols : List Key) (rs : Rows) :
    reindexCols cols rs cols = .ok (cols, rs) := by
  unfold reindexCols
  rw [if_pos rfl]

/-- The `loc`-restriction to the bounded nutrients followed by the reindex to
the bound index collapses to a pointwise lookup (all-NaN rows for nutrients
absent from the frame), provided the frame's row labels are distinct. -/
theorem reindex_select_inter (rs : Rows) (ks : List Key)
    (h : (rowKeys rs).Nodup) :
    reindexRows (selectAll rs (indexIntersection (rowKeys rs) ks)) ks =
      .ok (ks.map (fun k => (k, lookupRow rs k))) := by
  have hsel : selectAll rs (indexIntersection (rowKeys rs) ks) =
      (indexIntersection (rowKeys rs) ks).map
        (fun k => (k, lookupD rs k (fun _ => none))) :=
    selectAll_eq_map _ rs h _ (fun k hk => (mem_indexIntersection.mp hk).1)
  have hkeys : rowKeys (selectAll rs (indexIntersection (rowKeys rs) ks)) =
      indexIntersection (rowKeys rs) ks := by
    rw [hsel]; exact seriesKeys_map_fst _ _
  have hpoint : ∀ k ∈ ks,
      lookupRow (selectAll rs (indexIntersection (rowKeys rs) ks)) k =
        lookupRow rs k := by
    intro k hk
    rw [lookupRow_eq_lookupD, hsel, lookupD_map_keys]
    by_cases hmem : k ∈ rowKeys rs
    · rw [if_pos (mem_indexIntersection.mpr ⟨hmem, hk⟩), lookupRow_eq_lookupD]
    · rw [if_neg (fun hc => hmem (mem_indexIntersection.mp hc).1),
        lookupRow_of_not_mem hmem]
  unfold reindexRows
  by_cases heq : rowKeys (selectAll rs (indexIntersection (rowKeys rs) ks)) = ks
  · rw [if_pos heq]
    have hik : indexIntersection (rowKeys rs) ks = ks := by rw [← hkeys, heq]
    rw [hsel, hik]
    exact congrArg Except.ok
      (List.map_congr_left (fun k hk => by rw [← lookupRow_eq_lookupD]))
  · rw [if_neg heq]
    have hnd : (rowKeys (selectAll rs (indexIntersection (rowKeys rs) ks))).Nodup := by
      rw [hkeys]; exact indexIntersection_nodup _ _
    rw [if_pos hnd]
    exact congrArg Except.ok
      (List.map_congr_left (fun k hk => by rw [hpoint k hk]))

theorem coreRows_keys (FN : DataFrame) (dietmin dietmax : Series ℚ) :
    rowKeys (coreRows FN dietmin dietmax) =
      seriesKeys dietmin ++ seriesKeys dietmax := by
  unfold coreRows rowKeys
  rw [List.map_append]
  exact congrArg₂ (· ++ ·) (seriesKeys_map_fst _ _) (seriesKeys_map_fst _ _)

theorem coreB_keys (dietmin dietmax : Series ℚ) :
    seriesKeys (coreB dietmin dietmax) =
      seriesKeys dietmin ++ seriesKeys dietmax := by
  unfold coreB seriesKeys
  simp [List.map_map]

theorem bind_ok_reduce {ε α β : Type} (a : α) (f : α → Except ε β) :
    ((Except.ok a : Except ε α) >>= f) = f a := rfl

/-- With distinct catalogue row labels, the builder succeeds and its output
collapses to the closed forms above (no total-weight cap). -/
theorem build_none_eq (FN : DataFrame) (Prices : Series (Option ℚ))
    (dietmin dietmax : Series ℚ) (hFN : (rowKeys FN.rows).Nodup) :
    build FN Prices dietmin dietmax none =
      .ok { p := builtP Prices FN.cols,
            cols := seriesKeys (builtP Prices FN.cols),
            A := coreRows FN dietmin dietmax,
            b := coreB dietmin dietmax } := by
  have hA : (rowKeys (fillna0 FN.rows)).Nodup := by
    rw [rowKeys_fillna0]; exact hFN
  have hmin := reindex_select_inter (fillna0 FN.rows) (seriesKeys dietmin) hA
  have hmax := reindex_select_inter (fillna0 FN.rows) (seriesKeys dietmax) hA
  have hneg : negRows ((seriesKeys dietmax).map
      (fun k => (k, lookupRow (fillna0 FN.rows) k))) =
      (seriesKeys dietmax).map (fun k => (k, negRow (filledRow FN k))) := by
    unfold negRows filledRow
    rw [List.map_map]
    rfl
  have hkeysA : rowKeys ((seriesKeys dietmin).map
        (fun k => (k, lookupRow (fillna0 FN.rows) k)) ++
      (seriesKeys dietmax).map (fun k => (k, negRow (filledRow FN k)))) =
      seriesKeys (dietmin ++ dietmax.map (fun kv => (kv.1, -kv.2))) := by
    show _ = seriesKeys (coreB dietmin dietmax)
    rw [coreB_keys]
    unfold rowKeys
    rw [List.map_append]
    exact congrArg₂ (· ++ ·) (seriesKeys_map_fst _ _) (seriesKeys_map_fst _ _)
  simp only [build, hmin, hmax, bind_ok_reduce]
  rw [hneg, reindexCols_self]
  simp only [bind_ok_reduce]
  rw [reindexRows_of_eq hkeysA]
  rfl

/-- With distinct catalogue row labels, the builder with a total-weight cap
collapses to the closed forms, followed by the `"Hectograms"` update. -/
theorem build_some_eq (FN : DataFrame) (Prices : Series (Option ℚ))
    (dietmin dietmax : Series ℚ) (w : ℚ) (hFN : (rowKeys FN.rows).Nodup) :
    build FN Prices dietmin dietmax (some w) =
      .ok { p := builtP Prices FN.cols,
            cols := seriesKeys (builtP Prices FN.cols),
            A := setRowAll (coreRows FN dietmin dietmax) ("Hectograms") (-1),
            b := setVal (coreB dietmin dietmax) ("Hectograms") (-w) } := by
  have hA : (rowKeys (fillna0 FN.rows)).Nodup := by
    rw [rowKeys_fillna0]; exact hFN
  have hmin := reindex_select_inter (fillna0 FN.rows) (seriesKeys dietmin) hA
  have hmax := reindex_select_inter (fillna0 FN.rows) (seriesKeys dietmax) hA
  have hneg : negRows ((seriesKeys dietmax).map
      (fun k => (k, lookupRow (fillna0 FN.rows) k))) =
      (seriesKeys dietmax).map (fun k => (k, negRow (filledRow FN k))) := by
    unfold negRows filledRow
    rw [List.map_map]
    rfl
  have hkeysA : rowKeys ((seriesKeys dietmin).map
        (fun k => (k, lookupRow (fillna0 FN.rows) k)) ++
      (seriesKeys dietmax).map (fun k => (k, negRow (filledRow FN k)))) =
      seriesKeys (dietmin ++ dietmax.map (fun kv => (kv.1, -kv.2))) := by
    show _ = seriesKeys (coreB dietmin dietmax)
    rw [coreB_keys]
    unfold rowKeys
    rw [List.map_append]
    exact congrArg₂ (· ++ ·) (seriesKeys_map_fst _ _) (seriesKeys_map_fst _ _)
  simp only [build, hmin, hmax, bind_ok_reduce]
  rw [hneg, reindexCols_self]
  simp only [bind_ok_reduce]
  rw [reindexRows_of_eq hkeysA]
  rfl

theorem dropna_keys_sublist (s : Series (Option ℚ)) :
    (seriesKeys (dropna s)).Sublist (seriesKeys s) := by
  induction s with
  | nil => simp [dropna, seriesKeys]
  | cons kv s ih =>
    rcases kv with ⟨k, o⟩
    cases o with
    | none =>
      simp only [dropna, List.filterMap_cons, Option.map] at *
      exact ih.cons k
    | some v =>
      simp only [dropna, List.filterMap_cons, Option.map] at *
      exact ih.cons₂ k

theorem mem_dropna_keys {s : Series (Option ℚ)} {g : Key} :
    g ∈ seriesKeys (dropna s) ↔ ∃ v, (g, some v) ∈ s := by
  unfold seriesKeys dropna
  rw [List.mem_map]
  constructor
  · rintro ⟨⟨k, v⟩, hm, hk⟩
    obtain ⟨⟨k0, o⟩, hmem, hf⟩ := List.mem_filterMap.mp hm
    cases o with
    | none => simp at hf
    | some v0 =>
      have hf2 : (k0, v0) = (k, v) := by simpa using hf
      cases hf2
      dsimp only at hk
      subst hk
      exact ⟨v, hmem⟩
  · rintro ⟨v, hv⟩
    refine ⟨(g, v), List.mem_filterMap.mpr ⟨(g, some v), hv, rfl⟩, rfl⟩

theorem usableKeys_nodup_of (Prices : Series (Option ℚ)) (cols : List Key) :
    (usableKeys Prices cols).Nodup :=
  indexIntersection_nodup _ _

/-- With distinct price keys, the built cost series is one entry per usable
good, in usable order. -/
theorem builtP_eq_map (Prices : Series (Option ℚ)) (cols : List Key)
    (hp : (seriesKeys Prices).Nodup) :
    builtP Prices cols = (usableKeys Prices cols).map
      (fun k => (k, lookupD (dropna Prices) k 0)) := by
  have hd : (seriesKeys (dropna Prices)).Nodup :=
    (dropna_keys_sublist Prices).nodup hp
  exact selectAll_eq_map 0 (dropna Prices) hd _
    (fun k hk => (mem_indexIntersection.mp hk).1)

theorem builtP_keys (Prices : Series (Option ℚ)) (cols : List Key)
    (hp : (seriesKeys Prices).Nodup) :
    seriesKeys (builtP Prices cols) = usableKeys Prices cols := by
  rw [builtP_eq_map Prices cols hp]
  exact seriesKeys_map_fst _ _

theorem setRowAll_append {rs : Rows} {k : Key} (v : ℚ) (h : k ∉ rowKeys rs) :
    setRowAll rs k v = rs ++ [(k, fun _ => some v)] := by
  unfold setRowAll
  rw [if_neg h]

theorem setVal_append {s : Series ℚ} {k : Key} (v : ℚ) (h : k ∉ seriesKeys s) :
    setVal s k v = s ++ [(k, v)] := by
  unfold setVal
  rw [if_neg h]

theorem coreRows_length (FN : DataFrame) (dietmin dietmax : Series ℚ) :
    (coreRows FN dietmin dietmax).length = dietmin.length + dietmax.length := by
  unfold coreRows seriesKeys
  rw [List.length_append, List.length_map, List.length_map, List.length_map,
    List.length_map]

theorem filledRow_of_not_mem {FN : DataFrame} {k : Key}
    (h : k ∉ rowKeys FN.rows) : filledRow FN k = fun _ => none := by
  unfold filledRow
  apply lookupRow_of_not_mem
  rw [rowKeys_fillna0]
  exact h

theorem filledRow_isSome {FN : DataFrame} {j : Key} (h : j ∈ rowKeys FN.rows)
    (c : Key) : (filledRow FN j c).isSome := by
  unfold filledRow lookupRow
  cases hf : (fillna0 FN.rows).find? (fun r => decide (r.1 = j)) with
  | none =>
    exfalso
    rw [List.find?_eq_none] at hf
    have hj : j ∈ rowKeys (fillna0 FN.rows) := by
      rw [rowKeys_fillna0]; exact h
    obtain ⟨r, hr, hrk⟩ := List.mem_map.mp hj
    exact absurd (by simpa using hrk) (by simpa using hf r hr)
  | some r =>
    have hmem := List.mem_of_find?_eq_some hf
    obtain ⟨r0, hr0, hre⟩ := List.mem_map.mp hmem
    rw [← hre]
    simp

/-! ### Orientation equivalence for the solver adapter -/

theorem optDot_map_neg : ∀ (u : List (Option ℚ)) (x : List ℚ),
    optDot (u.map (Option.map Neg.neg)) x = (optDot u x).map Neg.neg
  | [], x => by simp [optDot]
  | a :: u, [] => by simp [optDot]
  | a :: u, x0 :: xs => by
    have ih := optDot_map_neg u xs
    simp only [List.map_cons, optDot, ih]
    cases optDot u xs with
    | none => rfl
    | some s =>
      cases a with
      | none => rfl
      | some q => exact congrArg some (by ring)

theorem optLE_neg_iff (a : Option ℚ) (c : ℚ) :
    optLE (a.map Neg.neg) (-c) ↔ optGE a c := by
  unfold optLE optGE
  cases a with
  | none => simp
  | some q =>
    constructor
    · rintro ⟨v, hv, hle⟩
      have hvq : v = -q := (Option.some.inj hv).symm
      refine ⟨q, rfl, ?_⟩
      rw [hvq] at hle
      linarith
    · rintro ⟨v, hv, hge⟩
      have hvq : v = q := (Option.some.inj hv).symm
      refine ⟨-q, rfl, ?_⟩
      rw [hvq] at hge
      linarith

theorem lpAub_eq (inst : BuiltLP) :
    lpAub inst =
      inst.A.map (fun r => (inst.cols.map r.2).map (Option.map Neg.neg)) := by
  unfold lpAub
  refine List.map_congr_left (fun r hr => ?_)
  rw [List.map_map]
  rfl

theorem scipyFeasible_iff_canonFeasible (inst : BuiltLP) (x : List ℚ) :
    scipyFeasible inst x ↔ canonFeasible inst x := by
  unfold scipyFeasible canonFeasible
  refine and_congr Iff.rfl (and_congr Iff.rfl ?_)
  rw [lpAub_eq]
  unfold lpBub
  rw [List.forall₂_map_left_iff, List.forall₂_map_right_iff]
  have hpt : ∀ (r : Key × RowFun) (kv : Key × ℚ),
      optLE (optDot ((inst.cols.map r.2).map (Option.map Neg.neg)) x) (-kv.2) ↔
        optGE (rowVal inst.cols r.2 x) kv.2 := by
    intro r kv
    rw [optDot_map_neg]
    exact optLE_neg_iff _ _
  constructor
  · exact fun h => h.imp (fun r kv hrc => (hpt r kv).mp hrc)
  · exact fun h => h.imp (fun r kv hrc => (hpt r kv).mpr hrc)

theorem isOptimalScipy_iff_canon (inst : BuiltLP) (x : List ℚ) :
    IsOptimalScipy inst x ↔ IsOptimalCanon inst x := by
  unfold IsOptimalScipy IsOptimalCanon
  simp only [scipyFeasible_iff_canonFeasible]

/-! ### Lemmas for the diagnostics step -/

theorem zipWith_map_left_self {α β γ : Type} (f : β → α → γ) (g : α → β) :
    ∀ (l : List α), List.zipWith f (l.map g) l = l.map (fun a => f (g a) a)
  | [] => rfl
  | a :: l => by
    simp only [List.map_cons, List.zipWith_cons_cons, zipWith_map_left_self f g l]

theorem absRow_of_nonneg {f : RowFun} (cols : List Key)
    (hf : ∀ c v, f c = some v → 0 ≤ v) :
    cols.map (fun c => (f c).map (fun q => |q|)) = cols.map f := by
  refine List.map_congr_left (fun c hc => ?_)
  cases hv : f c with
  | none => rfl
  | some v => simp [abs_of_nonneg (hf c v hv)]

theorem absRow_of_neg_nonneg {f : RowFun} (cols : List Key)
    (hf : ∀ c v, f c = some v → 0 ≤ v) :
    cols.map (fun c => (negRow f c).map (fun q => |q|)) = cols.map f := by
  refine List.map_congr_left (fun c hc => ?_)
  cases hv : f c with
  | none => simp [negRow, hv]
  | some v => simp [negRow, hv, abs_of_nonneg (hf c v hv)]

theorem filledRow_nonneg {FN : DataFrame}
    (hcell : ∀ r ∈ FN.rows, ∀ c v, r.2 c = some v → 0 ≤ v) (k : Key) :
    ∀ c v, filledRow FN k c = some v → 0 ≤ v := by
  intro c v hv
  unfold filledRow lookupRow at hv
  cases hfind : (fillna0 FN.rows).find? (fun r => decide (r.1 = k)) with
  | none => rw [hfind] at hv; exact absurd hv (by simp)
  | some r =>
    rw [hfind] at hv
    have hmem := List.mem_of_find?_eq_some hfind
    obtain ⟨r0, hr0, hre⟩ := List.mem_map.mp hmem
    rw [← hre] at hv
    have hv2 : some ((r0.2 c).getD 0) = some v := hv
    rw [← Option.some.inj hv2]
    cases horig : r0.2 c with
    | none => simp
    | some w => simpa using hcell r0 hr0 c w horig

theorem zipWith_map_same {α β γ δ : Type} (f : β → γ → δ) (u : α → β)
    (v : α → γ) :
    ∀ l : List α, List.zipWith f (l.map u) (l.map v) =
      l.map (fun a => f (u a) (v a))
  | [] => rfl
  | a :: l => by
    simp only [List.map_cons, List.zipWith_cons_cons, zipWith_map_same f u v l]

/-! ### Monotonicity under bound tightening -/

/-- Raising entries of `b` (same `A`, same columns) shrinks the canonical
feasible set. -/
theorem canonFeasible_mono {inst inst' : BuiltLP} (x : List ℚ)
    (hfeas : canonFeasible inst' x)
    (hA : inst'.A = inst.A) (hc : inst'.cols = inst.cols)
    (hb : List.Forall₂ (fun kv kv' => kv.2 ≤ (kv' : Key × ℚ).2) inst.b inst'.b) :
    canonFeasible inst x := by
  obtain ⟨hl, hn, hf⟩ := hfeas
  rw [hc] at hl
  refine ⟨hl, hn, ?_⟩
  rw [hA, hc] at hf
  rw [List.forall₂_iff_get] at hf hb ⊢
  obtain ⟨hfl, hfp⟩ := hf
  obtain ⟨hbl, hbp⟩ := hb
  refine ⟨by omega, fun i h1 h2 => ?_⟩
  have h3 : i < inst'.b.length := by omega
  obtain ⟨v, hv, hge⟩ := hfp i h1 h3
  exact ⟨v, hv, le_trans (hbp i h2 h3) hge⟩

theorem keys_eq_of_forall₂ {P : (Key × ℚ) → (Key × ℚ) → Prop}
    {s s' : Series ℚ} (hP : ∀ a b, P a b → a.1 = b.1)
    (h : List.Forall₂ P s s') : seriesKeys s = seriesKeys s' := by
  induction h with
  | nil => rfl
  | cons hr _ ih =>
    unfold seriesKeys at *
    simp only [List.map_cons, ih, hP _ _ hr]

theorem coreB_mono {dietmin dietmax dietmin' dietmax' : Series ℚ}
    (h1 : List.Forall₂ (fun kv kv' => kv.1 = kv'.1 ∧ kv.2 ≤ kv'.2) dietmin dietmin')
    (h2 : List.Forall₂ (fun kv kv' => kv.1 = kv'.1 ∧ kv'.2 ≤ kv.2) dietmax dietmax') :
    List.Forall₂ (fun kv kv' => kv.1 = kv'.1 ∧ kv.2 ≤ kv'.2)
      (coreB dietmin dietmax) (coreB dietmin' dietmax') := by
  unfold coreB
  refine List.rel_append h1 ?_
  rw [List.forall₂_map_left_iff, List.forall₂_map_right_iff]
  exact h2.imp (fun kv kv' hr => ⟨hr.1, by dsimp only; exact neg_le_neg hr.2⟩)

theorem setVal_mono {b b' : Series ℚ}
    (h : List.Forall₂ (fun kv kv' => kv.1 = kv'.1 ∧ kv.2 ≤ kv'.2) b b')
    (k : Key) (w : ℚ) :
    List.Forall₂ (fun kv kv' => kv.1 = kv'.1 ∧ kv.2 ≤ kv'.2)
      (setVal b k w) (setVal b' k w) := by
  have hkeys : seriesKeys b = seriesKeys b' :=
    keys_eq_of_forall₂ (fun a b hr => hr.1) h
  unfold setVal
  by_cases hk : k ∈ seriesKeys b
  · rw [if_pos hk, if_pos (hkeys ▸ hk)]
    rw [List.forall₂_map_left_iff, List.forall₂_map_right_iff]
    refine h.imp (fun kv kv' hr => ?_)
    by_cases hkk : kv.1 = k
    · rw [if_pos hkk, if_pos (hr.1 ▸ hkk)]
      exact ⟨hr.1, le_refl w⟩
    · rw [if_neg hkk, if_neg (hr.1 ▸ hkk)]
      exact hr
  · rw [if_neg hk, if_neg (fun hc => hk (hkeys ▸ hc))]
    exact List.rel_append h (List.Forall₂.cons ⟨rfl, le_refl _⟩ List.Forall₂.nil)

/-! ### Computing the concrete scenario -/

theorem build_scenario1 :
    build scenarioFN scenarioPrices [(("N" : Key), (20 : ℚ))] [] none =
      Except.ok scenarioInst := by
  rw [build_none_eq _ _ _ _ (by decide)]
  have hf : filledRow scenarioFN ("N") = scenarioYield := by
    funext c
    show some (((if c = "A" then some (10 : ℚ) else
      if c = "B" then some (5 : ℚ) else none)).getD 0) = scenarioYield c
    unfold scenarioYield
    by_cases hA : c = "A"
    · rw [if_pos hA, if_pos hA]
      rfl
    · rw [if_neg hA, if_neg hA]
      by_cases hB : c = "B"
      · rw [if_pos hB, if_pos hB]
        rfl
      · rw [if_neg hB, if_neg hB]
        rfl
  have hA : coreRows scenarioFN [(("N" : Key), (20 : ℚ))] [] =
      [(("N" : Key), scenarioYield)] := by
    show [(("N" : Key), filledRow scenarioFN ("N"))] = _
    rw [hf]
  refine congrArg Except.ok ?_
  show BuiltLP.mk [(("A" : Key), (1 : ℚ)), (("B" : Key), (2 : ℚ))]
      [("A" : Key), ("B" : Key)]
      (coreRows scenarioFN [(("N" : Key), (20 : ℚ))] [])
      [(("N" : Key), (20 : ℚ))] = scenarioInst
  rw [hA]
  rfl


theorem build_scenario2 :
    build scenarioFN scenarioPrices [(("N" : Key), (1000 : ℚ))] [] (some 1) =
      Except.ok scenarioInst2 := by
  rw [build_some_eq _ _ _ _ _ (by decide)]
  have hf : filledRow scenarioFN ("N") = scenarioYield := by
    funext c
    show some (((if c = "A" then some (10 : ℚ) else
      if c = "B" then some (5 : ℚ) else none)).getD 0) = scenarioYield c
    unfold scenarioYield
    by_cases hA : c = "A"
    · rw [if_pos hA, if_pos hA]
      rfl
    · rw [if_neg hA, if_neg hA]
      by_cases hB : c = "B"
      · rw [if_pos hB, if_pos hB]
        rfl
      · rw [if_neg hB, if_neg hB]
        rfl
  have hA : coreRows scenarioFN [(("N" : Key), (1000 : ℚ))] [] =
      [(("N" : Key), scenarioYield)] := by
    show [(("N" : Key), filledRow scenarioFN ("N"))] = _
    rw [hf]
  refine congrArg Except.ok ?_
  show BuiltLP.mk [(("A" : Key), (1 : ℚ)), (("B" : Key), (2 : ℚ))]
      [("A" : Key), ("B" : Key)]
      (setRowAll (coreRows scenarioFN [(("N" : Key), (1000 : ℚ))] [])
        ("Hectograms") (-1))
      [(("N" : Key), (1000 : ℚ)), (("Hectograms" : Key), (-1 : ℚ))] =
      scenarioInst2
  rw [hA]
  show BuiltLP.mk _ _
      ([(("N" : Key), scenarioYield)] ++ [(("Hectograms" : Key), fun _ => some (-1 : ℚ))])
      _ = scenarioInst2
  rfl


theorem scenario_feas20 : canonFeasible scenarioInst [2, 0] := by
  refine ⟨by decide, ?_, ?_⟩
  · intro xi hxi
    simp only [List.mem_cons, List.not_mem_nil, or_false] at hxi
    rcases hxi with h | h <;> rw [h] <;> norm_num
  · refine List.Forall₂.cons ⟨20, ?_, le_refl 20⟩ List.Forall₂.nil
    show some ((10 : ℚ) * 2 + ((5 : ℚ) * 0 + 0)) = some (20 : ℚ)
    norm_num

theorem scenario_optimal : IsOptimalCanon scenarioInst [2, 0] := by
  refine ⟨scenario_feas20, ?_⟩
  rintro y ⟨hylen, hynn, hyf⟩
  rcases y with _ | ⟨a, y⟩
  · simp [scenarioInst] at hylen
  rcases y with _ | ⟨b, y⟩
  · simp [scenarioInst] at hylen
  rcases y with _ | ⟨c, y⟩
  swap
  · simp [scenarioInst] at hylen
  rcases hyf with _ | ⟨hP, -⟩
  obtain ⟨v, hv, hge⟩ := hP
  have hrv : rowVal scenarioInst.cols scenarioYield [a, b] =
      some (10 * a + (5 * b + 0)) := rfl
  rw [hrv] at hv
  have hveq : v = 10 * a + (5 * b + 0) := (Option.some.inj hv).symm
  rw [hveq] at hge
  have ha : (0 : ℚ) ≤ a := hynn a (by simp)
  have hb : (0 : ℚ) ≤ b := hynn b (by simp)
  show dotQ (lpCost scenarioInst) [2, 0] ≤ dotQ (lpCost scenarioInst) [a, b]
  have h1 : dotQ (lpCost scenarioInst) [2, 0] = 2 := by
    show (1 : ℚ) * 2 + ((2 : ℚ) * 0 + 0) = 2
    norm_num
  have h2 : dotQ (lpCost scenarioInst) [a, b] = 1 * a + (2 * b + 0) := rfl
  rw [h1, h2]
  dsimp only at hge
  linarith

theorem scenario_unique : ∀ x, IsOptimalCanon scenarioInst x → x = [2, 0] := by
  rintro x ⟨⟨hxlen, hxnn, hxf⟩, hopt⟩
  rcases x with _ | ⟨a, x⟩
  · simp [scenarioInst] at hxlen
  rcases x with _ | ⟨b, x⟩
  · simp [scenarioInst] at hxlen
  rcases x with _ | ⟨c, x⟩
  swap
  · simp [scenarioInst] at hxlen
  rcases hxf with _ | ⟨hP, -⟩
  obtain ⟨v, hv, hge⟩ := hP
  have hrv : rowVal scenarioInst.cols scenarioYield [a, b] =
      some (10 * a + (5 * b + 0)) := rfl
  rw [hrv] at hv
  have hveq : v = 10 * a + (5 * b + 0) := (Option.some.inj hv).symm
  rw [hveq] at hge
  dsimp only at hge
  have ha : (0 : ℚ) ≤ a := hxnn a (by simp)
  have hb : (0 : ℚ) ≤ b := hxnn b (by simp)
  have hcost := hopt [2, 0] scenario_feas20
  have h1 : dotQ (lpCost scenarioInst) [2, 0] = 2 := by
    show (1 : ℚ) * 2 + ((2 : ℚ) * 0 + 0) = 2
    norm_num
  have h2 : dotQ (lpCost scenarioInst) [a, b] = 1 * a + (2 * b + 0) := rfl
  rw [h1, h2] at hcost
  have hbz : b = 0 := by linarith
  have haz : a = 2 := by linarith
  rw [hbz, haz]

theorem scenario2_infeasible : ∀ x, ¬ canonFeasible scenarioInst2 x := by
  rintro x ⟨hxlen, hxnn, hxf⟩
  rcases x with _ | ⟨a, x⟩
  · simp [scenarioInst2] at hxlen
  rcases x with _ | ⟨b, x⟩
  · simp [scenarioInst2] at hxlen
  rcases x with _ | ⟨c, x⟩
  swap
  · simp [scenarioInst2] at hxlen
  rcases hxf with _ | ⟨hP1, hrest⟩
  rcases hrest with _ | ⟨hP2, -⟩
  obtain ⟨v, hv, hge⟩ := hP1
  have hrv : rowVal scenarioInst2.cols scenarioYield [a, b] =
      some (10 * a + (5 * b + 0)) := rfl
  rw [hrv] at hv
  rw [(Option.some.inj hv).symm] at hge
  obtain ⟨w, hw, hge2⟩ := hP2
  have hrw : rowVal scenarioInst2.cols (fun _ => some (-1 : ℚ)) [a, b] =
      some (-1 * a + (-1 * b + 0)) := rfl
  rw [hrw] at hw
  rw [(Option.some.inj hw).symm] at hge2
  dsimp only at hge hge2
  have ha : (0 : ℚ) ≤ a := hxnn a (by simp)
  have hb : (0 : ℚ) ≤ b := hxnn b (by simp)
  linarith

/-! ### Claim theorems -/

/-- C1: for every catalogue, price series and bound series (with distinct
identifiers), the built system has, per nutrient with a minimum bound, exactly
one row carrying that nutrient's zero-filled yield vector with the bound as its
entry of `b`, and per nutrient with a maximum bound exactly one row carrying
the negated yield vector with the negated bound; the rows are the whole
minimum block (in minimum-series order) followed by the whole maximum block
(in maximum-series order), so a nutrient bounded on both sides gets two
distinct rows. -/
theorem C1_min_max_row_structure (FN : DataFrame) (Prices : Series (Option ℚ))
    (dietmin dietmax : Series ℚ) (hFN : (rowKeys FN.rows).Nodup)
    (hmin : (seriesKeys dietmin).Nodup) (hmax : (seriesKeys dietmax).Nodup) :
    ∃ inst, build FN Prices dietmin dietmax none = Except.ok inst ∧
      inst.A = dietmin.map (fun kv => (kv.1, filledRow FN kv.1)) ++
        dietmax.map (fun kv => (kv.1, negRow (filledRow FN kv.1))) ∧
      inst.b = dietmin ++ dietmax.map (fun kv => (kv.1, -kv.2)) ∧
      rowKeys inst.A = seriesKeys inst.b ∧
      (∀ k, (rowKeys inst.A).count k =
        (seriesKeys dietmin).count k + (seriesKeys dietmax).count k) := by
  refine ⟨_, build_none_eq FN Prices dietmin dietmax hFN, ?_, rfl, ?_, ?_⟩
  · show coreRows FN dietmin dietmax = _
    unfold coreRows seriesKeys
    rw [List.map_map, List.map_map]
    rfl
  · show rowKeys (coreRows FN dietmin dietmax) = seriesKeys (coreB dietmin dietmax)
    rw [coreRows_keys, coreB_keys]
  · intro k
    show (rowKeys (coreRows FN dietmin dietmax)).count k = _
    rw [coreRows_keys, List.count_append]

/-- C2: a good with a missing or absent price, or priced but not a catalogue
column, appears in no component of the built problem: the cost keys, the
column order and the reported diet's index are all exactly the intersection of
non-missing-priced goods with catalogue columns. -/
theorem C2_usable_good_set (FN : DataFrame) (Prices : Series (Option ℚ))
    (dietmin dietmax : Series ℚ) (mw : Option ℚ)
    (hFN : (rowKeys FN.rows).Nodup) (hp : (seriesKeys Prices).Nodup) :
    ∃ inst, build FN Prices dietmin dietmax mw = Except.ok inst ∧
      seriesKeys inst.p = usableKeys Prices FN.cols ∧
      inst.cols = usableKeys Prices FN.cols ∧
      (∀ g, g ∈ usableKeys Prices FN.cols ↔
        (∃ v, (g, some v) ∈ Prices) ∧ g ∈ FN.cols) ∧
      (∀ bk : Backend,
        (bk (lpCost inst) (lpAub inst) (lpBub inst)).x.length = inst.p.length →
        seriesKeys (solveWith bk inst).diet = usableKeys Prices FN.cols) := by
  have hpb := builtP_keys Prices FN.cols hp
  have hchar : ∀ g, g ∈ usableKeys Prices FN.cols ↔
      (∃ v, (g, some v) ∈ Prices) ∧ g ∈ FN.cols := by
    intro g
    unfold usableKeys
    rw [mem_indexIntersection, mem_dropna_keys]
  have hdiet : ∀ inst : BuiltLP, seriesKeys inst.p = usableKeys Prices FN.cols →
      ∀ bk : Backend,
      (bk (lpCost inst) (lpAub inst) (lpBub inst)).x.length = inst.p.length →
      seriesKeys (solveWith bk inst).diet = usableKeys Prices FN.cols := by
    intro inst hkeys bk hlen
    have hklen : (seriesKeys inst.p).length = inst.p.length :=
      List.length_map _ _
    unfold solveWith
    dsimp only
    by_cases hs : (bk (lpCost inst) (lpAub inst) (lpBub inst)).success = true
    · rw [if_pos hs]
      unfold seriesKeys
      rw [List.map_fst_zip _ _ (by simpa using le_of_eq hlen.symm)]
      exact hkeys
    · rw [if_neg hs]
      unfold seriesKeys
      rw [List.map_fst_zip _ _ (by simpa using le_of_eq hlen.symm)]
      exact hkeys
  cases mw with
  | none =>
    exact ⟨_, build_none_eq FN Prices dietmin dietmax hFN, hpb, hpb, hchar,
      hdiet _ hpb⟩
  | some w =>
    exact ⟨_, build_some_eq FN Prices dietmin dietmax w hFN, hpb, hpb, hchar,
      hdiet _ hpb⟩

/-- Witness for C2 at a concrete input with a NaN-priced good (`"D"`), a
priced good absent from the catalogue (`"C"`), and a usable good (`"A"`). -/
theorem C2_usable_good_set_witness :
    ∃ inst,
      build { rows := [(("N" : Key), fun _ => some (1 : ℚ))],
              cols := [("A" : Key), ("B" : Key)] }
        [(("A" : Key), some (1 : ℚ)), (("C" : Key), some (5 : ℚ)),
          (("D" : Key), (none : Option ℚ))]
        [(("N" : Key), (20 : ℚ))] [] none = Except.ok inst ∧
      seriesKeys inst.p = usableKeys
        [(("A" : Key), some (1 : ℚ)), (("C" : Key), some (5 : ℚ)),
          (("D" : Key), (none : Option ℚ))] [("A" : Key), ("B" : Key)] ∧
      inst.cols = usableKeys
        [(("A" : Key), some (1 : ℚ)), (("C" : Key), some (5 : ℚ)),
          (("D" : Key), (none : Option ℚ))] [("A" : Key), ("B" : Key)] ∧
      (∀ g, g ∈ usableKeys
          [(("A" : Key), some (1 : ℚ)), (("C" : Key), some (5 : ℚ)),
            (("D" : Key), (none : Option ℚ))] [("A" : Key), ("B" : Key)] ↔
        (∃ v, (g, some v) ∈
          [(("A" : Key), some (1 : ℚ)), (("C" : Key), some (5 : ℚ)),
            (("D" : Key), (none : Option ℚ))]) ∧ g ∈ [("A" : Key), ("B" : Key)]) ∧
      (∀ bk : Backend,
        (bk (lpCost inst) (lpAub inst) (lpBub inst)).x.length = inst.p.length →
        seriesKeys (solveWith bk inst).diet = usableKeys
          [(("A" : Key), some (1 : ℚ)), (("C" : Key), some (5 : ℚ)),
            (("D" : Key), (none : Option ℚ))] [("A" : Key), ("B" : Key)]) :=
  C2_usable_good_set _ _ _ _ none (by decide) (by decide)

/-- Witness for C1 at a concrete input: one good, one nutrient bounded on
both sides (two distinct rows). -/
theorem C1_min_max_row_structure_witness :
    ∃ inst,
      build { rows := [(("N" : Key), fun g => if g = "A" then some (10 : ℚ) else none)],
              cols := [("A" : Key)] }
        [(("A" : Key), some (1 : ℚ))] [(("N" : Key), (20 : ℚ))]
        [(("N" : Key), (50 : ℚ))] none = Except.ok inst ∧
      inst.A = [(("N" : Key), (20 : ℚ))].map
          (fun kv => (kv.1, filledRow { rows := [(("N" : Key), fun g => if g = "A" then some (10 : ℚ) else none)], cols := [("A" : Key)] } kv.1)) ++
        [(("N" : Key), (50 : ℚ))].map
          (fun kv => (kv.1, negRow (filledRow { rows := [(("N" : Key), fun g => if g = "A" then some (10 : ℚ) else none)], cols := [("A" : Key)] } kv.1))) ∧
      inst.b = [(("N" : Key), (20 : ℚ))] ++
        [(("N" : Key), (50 : ℚ))].map (fun kv => (kv.1, -kv.2)) ∧
      rowKeys inst.A = seriesKeys inst.b ∧
      (∀ k, (rowKeys inst.A).count k =
        (seriesKeys [(("N" : Key), (20 : ℚ))]).count k +
          (seriesKeys [(("N" : Key), (50 : ℚ))]).count k) :=
  C1_min_max_row_structure _ _ _ _ (by decide) (by decide) (by decide)

/-- C5 counterexample: with a nutrient literally labelled `"Hectograms"` in
the minimum bounds and a total-quantity cap, the cap row *overwrites* the
nutrient row instead of being appended: the built system has 1 row, not
`|minBounds| + |maxBounds| + 1 = 2`, and the nutrient's bound has been
replaced by `-cap`. -/
theorem C5_cap_row_counterexample :
    (build { rows := [(("Hectograms" : Key), fun _ => some (1 : ℚ))],
             cols := [("A" : Key)] }
        [(("A" : Key), some (1 : ℚ))] [(("Hectograms" : Key), (5 : ℚ))] []
        (some 1)).map (fun i => (i.A.length, i.b)) =
      Except.ok (1, [(("Hectograms" : Key), (-1 : ℚ))]) ∧
    (1 : ℕ) ≠ 1 + 0 + 1 := by
  constructor
  · rfl
  · decide

/-- C5 amended: provided no bound nutrient is labelled `"Hectograms"` (the
label the code uses for the cap row), supplying the cap appends exactly one
final row whose coefficient is `-1` for every usable good with bound entry
`-cap`, and the built system has `|usable goods|` columns and
`|minBounds| + |maxBounds| + (1 if cap else 0)` rows. -/
theorem C5_cap_row_amended (FN : DataFrame) (Prices : Series (Option ℚ))
    (dietmin dietmax : Series ℚ) (w : ℚ)
    (hFN : (rowKeys FN.rows).Nodup) (hp : (seriesKeys Prices).Nodup)
    (hmin : ("Hectograms" : Key) ∉ seriesKeys dietmin)
    (hmax : ("Hectograms" : Key) ∉ seriesKeys dietmax) :
    ∃ inst, build FN Prices dietmin dietmax (some w) = Except.ok inst ∧
      inst.A = coreRows FN dietmin dietmax ++
        [(("Hectograms" : Key), fun _ => some (-1 : ℚ))] ∧
      inst.b = coreB dietmin dietmax ++ [(("Hectograms" : Key), -w)] ∧
      inst.A.length = dietmin.length + dietmax.length + 1 ∧
      inst.cols.length = (usableKeys Prices FN.cols).length ∧
      ∀ inst0, build FN Prices dietmin dietmax none = Except.ok inst0 →
        inst0.A.length = dietmin.length + dietmax.length ∧
        inst0.cols.length = (usableKeys Prices FN.cols).length := by
  have hnotA : ("Hectograms" : Key) ∉ rowKeys (coreRows FN dietmin dietmax) := by
    rw [coreRows_keys, List.mem_append]
    rintro (h | h)
    · exact hmin h
    · exact hmax h
  have hnotB : ("Hectograms" : Key) ∉ seriesKeys (coreB dietmin dietmax) := by
    rw [coreB_keys, List.mem_append]
    rintro (h | h)
    · exact hmin h
    · exact hmax h
  have hcols : (seriesKeys (builtP Prices FN.cols)).length =
      (usableKeys Prices FN.cols).length := by
    rw [builtP_keys Prices FN.cols hp]
  refine ⟨_, build_some_eq FN Prices dietmin dietmax w hFN, ?_, ?_, ?_, hcols, ?_⟩
  · exact setRowAll_append (-1) hnotA
  · exact setVal_append (-w) hnotB
  · show (setRowAll (coreRows FN dietmin dietmax) _ _).length = _
    rw [setRowAll_append (-1) hnotA, List.length_append,
      coreRows_length FN dietmin dietmax]
    rfl
  · intro inst0 h0
    rw [build_none_eq FN Prices dietmin dietmax hFN] at h0
    cases h0
    exact ⟨coreRows_length FN dietmin dietmax, hcols⟩

/-- Witness for the amended C5 at a concrete capped input. -/
theorem C5_cap_row_amended_witness :
    ∃ inst,
      build { rows := [(("N" : Key), fun g => if g = "A" then some (10 : ℚ) else none)],
              cols := [("A" : Key)] }
        [(("A" : Key), some (1 : ℚ))] [(("N" : Key), (20 : ℚ))] [] (some 12) =
        Except.ok inst ∧
      inst.A = coreRows
          { rows := [(("N" : Key), fun g => if g = "A" then some (10 : ℚ) else none)],
            cols := [("A" : Key)] } [(("N" : Key), (20 : ℚ))] [] ++
        [(("Hectograms" : Key), fun _ => some (-1 : ℚ))] ∧
      inst.b = coreB [(("N" : Key), (20 : ℚ))] [] ++
        [(("Hectograms" : Key), -(12 : ℚ))] ∧
      inst.A.length = List.length [(("N" : Key), (20 : ℚ))] + List.length ([] : Series ℚ) + 1 ∧
      inst.cols.length = (usableKeys [(("A" : Key), some (1 : ℚ))] [("A" : Key)]).length ∧
      ∀ inst0,
        build { rows := [(("N" : Key), fun g => if g = "A" then some (10 : ℚ) else none)],
                cols := [("A" : Key)] }
          [(("A" : Key), some (1 : ℚ))] [(("N" : Key), (20 : ℚ))] [] none =
          Except.ok inst0 →
        inst0.A.length = List.length [(("N" : Key), (20 : ℚ))] + List.length ([] : Series ℚ) ∧
        inst0.cols.length = (usableKeys [(("A" : Key), some (1 : ℚ))] [("A" : Key)]).length :=
  C5_cap_row_amended _ _ _ _ 12 (by decide) (by decide) (by decide) (by decide)

/-- C10: a nutrient with a minimum bound, or with a maximum bound, that is
absent from the catalogue's rows still gets its constraint row, every
coefficient of which is NaN (not zero) — the zero fill applies only to
catalogue nutrients — and that all-NaN row, with its bound, is handed to the
solver rather than dropped. -/
theorem C10_missing_nutrient_nan_row (FN : DataFrame)
    (Prices : Series (Option ℚ)) (dietmin dietmax : Series ℚ) (k : Key)
    (hFN : (rowKeys FN.rows).Nodup)
    (hk : k ∈ seriesKeys dietmin ∨ k ∈ seriesKeys dietmax)
    (habs : k ∉ rowKeys FN.rows) :
    ∃ inst, build FN Prices dietmin dietmax none = Except.ok inst ∧
      (∀ c, filledRow FN k c = none) ∧
      (∀ c, negRow (filledRow FN k) c = none) ∧
      (k ∈ seriesKeys dietmin → (k, filledRow FN k) ∈ inst.A) ∧
      (k ∈ seriesKeys dietmax → (k, negRow (filledRow FN k)) ∈ inst.A) ∧
      (∃ row ∈ lpAub inst, row.length = inst.cols.length ∧ ∀ a ∈ row, a = none) ∧
      (∀ v : ℚ, (k, v) ∈ dietmin → (k, v) ∈ inst.b) ∧
      (∀ v : ℚ, (k, v) ∈ dietmax → (k, -v) ∈ inst.b) ∧
      (∀ j ∈ rowKeys FN.rows, ∀ c, (filledRow FN j c).isSome) := by
  have hnan : filledRow FN k = fun _ => none := filledRow_of_not_mem habs
  have hnegnan : ∀ c, negRow (filledRow FN k) c = none := by
    intro c
    rw [hnan]
    rfl
  have hmemMin : k ∈ seriesKeys dietmin →
      (k, filledRow FN k) ∈ coreRows FN dietmin dietmax := by
    intro hkmin
    unfold coreRows
    exact List.mem_append_left _ (List.mem_map.mpr ⟨k, hkmin, rfl⟩)
  have hmemMax : k ∈ seriesKeys dietmax →
      (k, negRow (filledRow FN k)) ∈ coreRows FN dietmin dietmax := by
    intro hkmax
    unfold coreRows
    exact List.mem_append_right _ (List.mem_map.mpr ⟨k, hkmax, rfl⟩)
  refine ⟨_, build_none_eq FN Prices dietmin dietmax hFN,
    fun c => by rw [hnan], hnegnan, hmemMin, hmemMax, ?_, ?_, ?_,
    fun j hj c => filledRow_isSome hj c⟩
  · cases hk with
    | inl hkmin =>
      refine ⟨(seriesKeys (builtP Prices FN.cols)).map
          (fun c => (filledRow FN k c).map Neg.neg),
        List.mem_map.mpr ⟨(k, filledRow FN k), hmemMin hkmin, rfl⟩,
        List.length_map _ _, ?_⟩
      intro a ha
      obtain ⟨c, hc, hac⟩ := List.mem_map.mp ha
      rw [← hac, hnan]
      rfl
    | inr hkmax =>
      refine ⟨(seriesKeys (builtP Prices FN.cols)).map
          (fun c => (negRow (filledRow FN k) c).map Neg.neg),
        List.mem_map.mpr ⟨(k, negRow (filledRow FN k)), hmemMax hkmax, rfl⟩,
        List.length_map _ _, ?_⟩
      intro a ha
      obtain ⟨c, hc, hac⟩ := List.mem_map.mp ha
      rw [← hac, hnegnan]
      rfl
  · intro v hv
    show (k, v) ∈ coreB dietmin dietmax
    exact List.mem_append_left _ hv
  · intro v hv
    show (k, -v) ∈ coreB dietmin dietmax
    exact List.mem_append_right _
      (List.mem_map.mpr ⟨(k, v), hv, rfl⟩)

/-- Witness for C10: the nutrient `"Zinc"` is bounded only in the
maximum-bound series and is not a catalogue row. -/
theorem C10_missing_nutrient_nan_row_witness :
    ∃ inst,
      build { rows := [(("N" : Key), fun g => if g = "A" then some (10 : ℚ) else none)],
              cols := [("A" : Key)] }
        [(("A" : Key), some (1 : ℚ))]
        [(("N" : Key), (20 : ℚ))] [(("Zinc" : Key), (3 : ℚ))] none =
        Except.ok inst ∧
      (∀ c, filledRow
          { rows := [(("N" : Key), fun g => if g = "A" then some (10 : ℚ) else none)],
            cols := [("A" : Key)] } ("Zinc") c = none) ∧
      (∀ c, negRow (filledRow
          { rows := [(("N" : Key), fun g => if g = "A" then some (10 : ℚ) else none)],
            cols := [("A" : Key)] } ("Zinc")) c = none) ∧
      ((("Zinc" : Key)) ∈ seriesKeys [(("N" : Key), (20 : ℚ))] →
        ((("Zinc" : Key)), filledRow
          { rows := [(("N" : Key), fun g => if g = "A" then some (10 : ℚ) else none)],
            cols := [("A" : Key)] } ("Zinc")) ∈ inst.A) ∧
      ((("Zinc" : Key)) ∈ seriesKeys [(("Zinc" : Key), (3 : ℚ))] →
        ((("Zinc" : Key)), negRow (filledRow
          { rows := [(("N" : Key), fun g => if g = "A" then some (10 : ℚ) else none)],
            cols := [("A" : Key)] } ("Zinc"))) ∈ inst.A) ∧
      (∃ row ∈ lpAub inst, row.length = inst.cols.length ∧ ∀ a ∈ row, a = none) ∧
      (∀ v : ℚ, ((("Zinc" : Key)), v) ∈ [(("N" : Key), (20 : ℚ))] →
        ((("Zinc" : Key)), v) ∈ inst.b) ∧
      (∀ v : ℚ, ((("Zinc" : Key)), v) ∈ [(("Zinc" : Key), (3 : ℚ))] →
        ((("Zinc" : Key)), -v) ∈ inst.b) ∧
      (∀ j ∈ rowKeys
          ({ rows := [(("N" : Key), fun g => if g = "A" then some (10 : ℚ) else none)],
             cols := [("A" : Key)] } : DataFrame).rows, ∀ c,
        (filledRow
          { rows := [(("N" : Key), fun g => if g = "A" then some (10 : ℚ) else none)],
            cols := [("A" : Key)] } j c).isSome) :=
  C10_missing_nutrient_nan_row _ _ _ _ ("Zinc") (by decide)
    (Or.inr (by decide)) (by decide)

/-- C9 counterexample: with the good `"A"` carrying two price entries, the
builder does not fail fast with a duplicate-key error; it completes and
carries both occurrences into the cost vector and the column order. -/
theorem C9_duplicate_keys_counterexample :
    (build { rows := [(("N" : Key), fun _ => some (1 : ℚ))],
             cols := [("A" : Key)] }
        [(("A" : Key), some (1 : ℚ)), (("A" : Key), some (3 : ℚ))]
        [(("N" : Key), (2 : ℚ))] [] none).map (fun i => (i.p, i.cols)) =
      Except.ok ([(("A" : Key), (1 : ℚ)), (("A" : Key), (3 : ℚ))],
        [("A" : Key), ("A" : Key)]) := by
  rfl

/-- C9 amended: the builder performs no duplicate-identifier check. With
distinct catalogue rows it always completes, whatever duplication the price
series carries (so duplicated price keys are silently carried through, one
column per occurrence); duplicated catalogue rows for a bounded nutrient
instead surface as a plain reindex error, not a structured duplicate-key
failure. -/
theorem C9_no_duplicate_detection (FN : DataFrame) (Prices : Series (Option ℚ))
    (dietmin dietmax : Series ℚ) (hFN : (rowKeys FN.rows).Nodup) :
    (∃ inst, build FN Prices dietmin dietmax none = Except.ok inst) ∧
    ((build { rows := [(("N" : Key), fun _ => some (1 : ℚ))],
              cols := [("A" : Key)] }
        [(("A" : Key), some (2 : ℚ)), (("A" : Key), some (7 : ℚ))]
        [(("N" : Key), (2 : ℚ))] [] none).map (fun i => i.p) =
      Except.ok [(("A" : Key), (2 : ℚ)), (("A" : Key), (7 : ℚ))]) ∧
    (build { rows := [(("N" : Key), fun _ => some (1 : ℚ)),
                      (("N" : Key), fun _ => some (2 : ℚ))],
             cols := [("A" : Key)] }
        [(("A" : Key), some (1 : ℚ))] [(("N" : Key), (2 : ℚ))] [] none =
      Except.error ("cannot reindex on an axis with duplicate entries")) :=
  ⟨⟨_, build_none_eq FN Prices dietmin dietmax hFN⟩, rfl, rfl⟩

/-- Witness for the amended C9. -/
theorem C9_no_duplicate_detection_witness :
    (∃ inst, build { rows := [(("M" : Key), fun _ => some (4 : ℚ))],
                     cols := [("B" : Key)] }
        [(("B" : Key), some (1 : ℚ)), (("B" : Key), some (2 : ℚ))]
        [(("M" : Key), (3 : ℚ))] [] none = Except.ok inst) ∧
    ((build { rows := [(("N" : Key), fun _ => some (1 : ℚ))],
              cols := [("A" : Key)] }
        [(("A" : Key), some (2 : ℚ)), (("A" : Key), some (7 : ℚ))]
        [(("N" : Key), (2 : ℚ))] [] none).map (fun i => i.p) =
      Except.ok [(("A" : Key), (2 : ℚ)), (("A" : Key), (7 : ℚ))]) ∧
    (build { rows := [(("N" : Key), fun _ => some (1 : ℚ)),
                      (("N" : Key), fun _ => some (2 : ℚ))],
             cols := [("A" : Key)] }
        [(("A" : Key), some (1 : ℚ))] [(("N" : Key), (2 : ℚ))] [] none =
      Except.error ("cannot reindex on an axis with duplicate entries")) :=
  C9_no_duplicate_detection _ _ _ [] (by decide)

/-- C3: the problem handed to the less-than-or-equal backend — minimize
`p · x` subject to `(-A) x ≤ (-b)`, `x ≥ 0`, with `A` and `b` negated once,
uniformly — has exactly the same feasible set and the same optimal solutions
(hence the same optimal value, the objective being identical) as the
canonical problem `minimize cost · x` s.t. `constraintMatrix · x ≥
constraintBounds`, `x ≥ 0`. -/
theorem C3_le_backend_refinement (inst : BuiltLP) (x : List ℚ) :
    (scipyFeasible inst x ↔ canonFeasible inst x) ∧
    (IsOptimalScipy inst x ↔ IsOptimalCanon inst x) :=
  ⟨scipyFeasible_iff_canonFeasible inst x, isOptimalScipy_iff_canon inst x⟩

/-- C4: when the backend reports failure on the handed arrays — which a
complete backend does on every infeasible instance — the pipeline returns a
structured result (it is a total function, so no exception): success is
`false`, every entry of the reported diet is the NaN marker (not zero), and
the backend's failure message is surfaced verbatim. -/
theorem C4_infeasible_structured_failure (bk : Backend) (inst : BuiltLP)
    (hcomplete : ∀ c Aub bub, ¬ (∃ y, leFeasible c.length Aub bub y) →
      (bk c Aub bub).success = false)
    (hinf : ¬ ∃ y, canonFeasible inst y)
    (hlen : inst.p.length = inst.cols.length) :
    (solveWith bk inst).success = false ∧
    (∀ kv ∈ (solveWith bk inst).diet, kv.2 = (none : Option ℚ)) ∧
    (solveWith bk inst).message =
      (bk (lpCost inst) (lpAub inst) (lpBub inst)).message := by
  have hle : ¬ ∃ y, leFeasible (lpCost inst).length (lpAub inst) (lpBub inst) y := by
    rintro ⟨y, hyl, hyn, hyf⟩
    apply hinf
    refine ⟨y, (scipyFeasible_iff_canonFeasible inst y).mp ?_⟩
    refine ⟨?_, hyn, hyf⟩
    rw [hyl]
    unfold lpCost
    rw [List.length_map]
    exact hlen
  have hsf : (bk (lpCost inst) (lpAub inst) (lpBub inst)).success = false :=
    hcomplete _ _ _ hle
  unfold solveWith
  dsimp only
  rw [if_neg (by rw [hsf]; exact Bool.false_ne_true)]
  refine ⟨hsf, ?_, rfl⟩
  rintro ⟨k, a⟩ hkv
  have hmem := (List.of_mem_zip hkv).2
  obtain ⟨x0, hx0, hax⟩ := List.mem_map.mp hmem
  exact hax.symm

/-- Witness for C4: a constantly-failing backend (trivially complete) on a
concrete infeasible built instance (`0 · x ≥ 1`). -/
theorem C4_infeasible_structured_failure_witness :
    ((solveWith (fun _ _ _ =>
        { success := false, status := 2,
          message := ("The problem is infeasible."), x := [0], objVal := 0 })
      { p := [(("A" : Key), (1 : ℚ))], cols := [("A" : Key)],
        A := [(("N" : Key), fun _ => some (0 : ℚ))],
        b := [(("N" : Key), (1 : ℚ))] }).success = false) ∧
    (∀ kv ∈ (solveWith (fun _ _ _ =>
        { success := false, status := 2,
          message := ("The problem is infeasible."), x := [0], objVal := 0 })
      { p := [(("A" : Key), (1 : ℚ))], cols := [("A" : Key)],
        A := [(("N" : Key), fun _ => some (0 : ℚ))],
        b := [(("N" : Key), (1 : ℚ))] }).diet, kv.2 = (none : Option ℚ)) ∧
    (solveWith (fun _ _ _ =>
        { success := false, status := 2,
          message := ("The problem is infeasible."), x := [0], objVal := 0 })
      { p := [(("A" : Key), (1 : ℚ))], cols := [("A" : Key)],
        A := [(("N" : Key), fun _ => some (0 : ℚ))],
        b := [(("N" : Key), (1 : ℚ))] }).message =
      ((fun (_ : List ℚ) (_ : List (List (Option ℚ))) (_ : List ℚ) =>
        ({ success := false, status := 2,
           message := ("The problem is infeasible."), x := [0], objVal := 0 } :
          LPResult))
        (lpCost { p := [(("A" : Key), (1 : ℚ))], cols := [("A" : Key)],
                  A := [(("N" : Key), fun _ => some (0 : ℚ))],
                  b := [(("N" : Key), (1 : ℚ))] })
        (lpAub { p := [(("A" : Key), (1 : ℚ))], cols := [("A" : Key)],
                 A := [(("N" : Key), fun _ => some (0 : ℚ))],
                 b := [(("N" : Key), (1 : ℚ))] })
        (lpBub { p := [(("A" : Key), (1 : ℚ))], cols := [("A" : Key)],
                 A := [(("N" : Key), fun _ => some (0 : ℚ))],
                 b := [(("N" : Key), (1 : ℚ))] })).message :=
  C4_infeasible_structured_failure _ _
    (fun _ _ _ _ => rfl)
    (by
      rintro ⟨y, hyl, hyn, hyf⟩
      rcases y with _ | ⟨y0, ys⟩
      · simp at hyl
      · rcases ys with _ | ⟨y1, ys⟩
        · cases hyf with
          | cons hP _ =>
            obtain ⟨v, hv, hge⟩ := hP
            have hv0 : v = 0 * y0 + 0 := (Option.some.inj hv).symm
            rw [hv0] at hge
            norm_num at hge
        · simp at hyl)
    rfl

/-- C6: the diagnostics step computes the realized outcome of every
constraint as `|constraintMatrix| . x` and compares it elementwise against
`|constraintBounds|`, reporting as binding exactly the constraints whose
outcome differs from the bound by less than the tolerance: over a built
instance with this domain's nonnegative data, the reported labels are exactly
the minimum-bounded nutrients, then the maximum-bounded nutrients, whose
realized yield is within `tol` of the bound in its original magnitude. -/
theorem C6_binding_diagnostics (FN : DataFrame) (Prices : Series (Option ℚ))
    (dietmin dietmax : Series ℚ) (x : List ℚ) (tol : ℚ)
    (hFN : (rowKeys FN.rows).Nodup)
    (hcell : ∀ r ∈ FN.rows, ∀ c v, r.2 c = some v → 0 ≤ v)
    (hminpos : ∀ kv ∈ dietmin, 0 ≤ kv.2)
    (hmaxpos : ∀ kv ∈ dietmax, 0 ≤ kv.2) :
    ∃ inst, build FN Prices dietmin dietmax none = Except.ok inst ∧
      bindingConstraints inst x tol =
        seriesKeys (dietmin.filter (bindsAt FN inst.cols x tol)) ++
          seriesKeys (dietmax.filter (bindsAt FN inst.cols x tol)) := by
  refine ⟨_, build_none_eq FN Prices dietmin dietmax hFN, ?_⟩
  set cols := seriesKeys (builtP Prices FN.cols) with hcolsdef
  have houtcome :
      outcomeTab { p := builtP Prices FN.cols, cols := cols,
                   A := coreRows FN dietmin dietmax,
                   b := coreB dietmin dietmax } x =
        dietmin.map (fun kv =>
          (kv.1, absRowVal cols (filledRow FN kv.1) x, |kv.2|)) ++
        dietmax.map (fun kv =>
          (kv.1, absRowVal cols (negRow (filledRow FN kv.1)) x, |(-kv.2)|)) := by
    unfold outcomeTab coreRows coreB
    dsimp only
    rw [List.zipWith_append _ _ _ _ _ (by simp [seriesKeys])]
    congr 1
    · unfold seriesKeys
      rw [List.map_map, zipWith_map_left_self]
      rfl
    · unfold seriesKeys
      rw [List.map_map, zipWith_map_same]
      rfl
  unfold bindingConstraints
  rw [houtcome, List.filter_append, List.map_append]
  congr 1
  · rw [List.filter_map, List.map_map]
    have hpt : ∀ kv ∈ dietmin,
        ((fun t : Key × Option ℚ × ℚ =>
          match t.2.1 with
          | some out => decide (|t.2.2 - out| < tol)
          | none => false) ∘
          (fun kv : Key × ℚ =>
            (kv.1, absRowVal cols (filledRow FN kv.1) x, |kv.2|))) kv =
        bindsAt FN cols x tol kv := by
      intro kv hkv
      simp only [Function.comp, bindsAt, absRowVal,
        absRow_of_nonneg cols (filledRow_nonneg hcell kv.1),
        abs_of_nonneg (hminpos kv hkv)]
    rw [List.filter_congr hpt]
    rfl
  · rw [List.filter_map, List.map_map]
    have hpt : ∀ kv ∈ dietmax,
        ((fun t : Key × Option ℚ × ℚ =>
          match t.2.1 with
          | some out => decide (|t.2.2 - out| < tol)
          | none => false) ∘
          (fun kv : Key × ℚ =>
            (kv.1, absRowVal cols (negRow (filledRow FN kv.1)) x, |(-kv.2)|))) kv =
        bindsAt FN cols x tol kv := by
      intro kv hkv
      simp only [Function.comp, bindsAt, absRowVal,
        absRow_of_neg_nonneg cols (filledRow_nonneg hcell kv.1),
        abs_neg, abs_of_nonneg (hmaxpos kv hkv)]
    rw [List.filter_congr hpt]
    rfl

/-- Witness for C6 at a concrete two-good input with a nutrient bounded on
both sides, evaluated at the diet `[2, 0]`. -/
theorem C6_binding_diagnostics_witness :
    ∃ inst,
      build { rows := [(("N" : Key), fun g =>
                if g = "A" then some (10 : ℚ) else
                if g = "B" then some (5 : ℚ) else none)],
              cols := [("A" : Key), ("B" : Key)] }
        [(("A" : Key), some (1 : ℚ)), (("B" : Key), some (2 : ℚ))]
        [(("N" : Key), (20 : ℚ))] [(("N" : Key), (50 : ℚ))] none =
        Except.ok inst ∧
      bindingConstraints inst [2, 0] (1 / 1000000) =
        seriesKeys ([(("N" : Key), (20 : ℚ))].filter
          (bindsAt
            { rows := [(("N" : Key), fun g =>
                if g = "A" then some (10 : ℚ) else
                if g = "B" then some (5 : ℚ) else none)],
              cols := [("A" : Key), ("B" : Key)] } inst.cols [2, 0] (1 / 1000000))) ++
        seriesKeys ([(("N" : Key), (50 : ℚ))].filter
          (bindsAt
            { rows := [(("N" : Key), fun g =>
                if g = "A" then some (10 : ℚ) else
                if g = "B" then some (5 : ℚ) else none)],
              cols := [("A" : Key), ("B" : Key)] } inst.cols [2, 0] (1 / 1000000))) :=
  C6_binding_diagnostics _ _ _ _ [2, 0] (1 / 1000000) (by decide)
    (by
      rintro r hr c v hv
      simp only [List.mem_singleton] at hr
      subst hr
      dsimp only at hv
      by_cases hA : c = "A"
      · rw [if_pos hA] at hv
        rw [← Option.some.inj hv]
        norm_num
      · rw [if_neg hA] at hv
        by_cases hB : c = "B"
        · rw [if_pos hB] at hv
          rw [← Option.some.inj hv]
          norm_num
        · rw [if_neg hB] at hv
          exact absurd hv (by simp))
    (by decide) (by decide)

/-- C7: tightening bounds (raising minimums and/or lowering maximums, keys
unchanged) never decreases the optimal cost of the built program, and if the
tightened program is infeasible then (for any sound backend) the returned
success flag is false. -/
theorem C7_tightening_monotone (FN : DataFrame) (Prices : Series (Option ℚ))
    (dietmin dietmax dietmin' dietmax' : Series ℚ) (mw : Option ℚ)
    (hFN : (rowKeys FN.rows).Nodup)
    (hmin : List.Forall₂ (fun kv kv' => kv.1 = kv'.1 ∧ kv.2 ≤ kv'.2)
      dietmin dietmin')
    (hmax : List.Forall₂ (fun kv kv' => kv.1 = kv'.1 ∧ kv'.2 ≤ kv.2)
      dietmax dietmax') :
    ∃ inst inst',
      build FN Prices dietmin dietmax mw = Except.ok inst ∧
      build FN Prices dietmin' dietmax' mw = Except.ok inst' ∧
      (∀ x y, IsOptimalCanon inst x → IsOptimalCanon inst' y →
        dotQ (lpCost inst) x ≤ dotQ (lpCost inst') y) ∧
      (∀ bk : Backend, SoundBackend bk → (¬ ∃ y, canonFeasible inst' y) →
        (solveWith bk inst').success = false) := by
  have hkmin : seriesKeys dietmin = seriesKeys dietmin' :=
    keys_eq_of_forall₂ (fun a b hr => hr.1) hmin
  have hkmax : seriesKeys dietmax = seriesKeys dietmax' :=
    keys_eq_of_forall₂ (fun a b hr => hr.1) hmax
  have hcore : coreRows FN dietmin' dietmax' = coreRows FN dietmin dietmax := by
    unfold coreRows
    rw [hkmin, hkmax]
  have hbmono := coreB_mono hmin hmax
  have hflag : ∀ i2 : BuiltLP, i2.p.length = i2.cols.length →
      ∀ bk : Backend, SoundBackend bk → (¬ ∃ y, canonFeasible i2 y) →
      (solveWith bk i2).success = false := by
    intro i2 hlen bk hsnd hinf
    cases hsucc : (bk (lpCost i2) (lpAub i2) (lpBub i2)).success with
    | false =>
      unfold solveWith
      dsimp only
      exact hsucc
    | true =>
      exfalso
      obtain ⟨y, hyl, hyn, hyf⟩ := hsnd _ _ _ hsucc
      refine hinf ⟨y, (scipyFeasible_iff_canonFeasible _ y).mp ⟨?_, hyn, hyf⟩⟩
      rw [hyl]
      unfold lpCost
      rw [List.length_map]
      exact hlen
  have hplen : (builtP Prices FN.cols).length =
      (seriesKeys (builtP Prices FN.cols)).length := by
    unfold seriesKeys
    exact (List.length_map _ _).symm
  cases mw with
  | none =>
    refine ⟨_, _, build_none_eq FN Prices dietmin dietmax hFN,
      build_none_eq FN Prices dietmin' dietmax' hFN, ?_, hflag _ hplen⟩
    intro x y hx hy
    exact hx.2 y (canonFeasible_mono y hy.1 hcore rfl
      (hbmono.imp (fun kv kv' hr => hr.2)))
  | some w =>
    refine ⟨_, _, build_some_eq FN Prices dietmin dietmax w hFN,
      build_some_eq FN Prices dietmin' dietmax' w hFN, ?_, hflag _ hplen⟩
    intro x y hx hy
    refine hx.2 y (canonFeasible_mono y hy.1 ?_ rfl
      ((setVal_mono hbmono ("Hectograms") (-w)).imp (fun kv kv' hr => hr.2)))
    show setRowAll (coreRows FN dietmin' dietmax') _ _ = _
    rw [hcore]

/-- Witness for C7: one good, one nutrient, minimum raised from 20 to 30. -/
theorem C7_tightening_monotone_witness :
    ∃ inst inst',
      build { rows := [(("N" : Key), fun _ => some (10 : ℚ))],
              cols := [("A" : Key)] }
        [(("A" : Key), some (1 : ℚ))] [(("N" : Key), (20 : ℚ))] [] none =
        Except.ok inst ∧
      build { rows := [(("N" : Key), fun _ => some (10 : ℚ))],
              cols := [("A" : Key)] }
        [(("A" : Key), some (1 : ℚ))] [(("N" : Key), (30 : ℚ))] [] none =
        Except.ok inst' ∧
      (∀ x y, IsOptimalCanon inst x → IsOptimalCanon inst' y →
        dotQ (lpCost inst) x ≤ dotQ (lpCost inst') y) ∧
      (∀ bk : Backend, SoundBackend bk → (¬ ∃ y, canonFeasible inst' y) →
        (solveWith bk inst').success = false) :=
  C7_tightening_monotone _ _ _ _ _ _ none (by decide)
    (List.Forall₂.cons ⟨rfl, by norm_num⟩ List.Forall₂.nil)
    List.Forall₂.nil

/-- C8: for the concrete two-good input (A priced 1.0 yielding 10 units of N,
B priced 2.0 yielding 5, minimum bound N >= 20) the pipeline's built program
has unique optimum (A = 2, B = 0) at cost 2.0, and any backend returning an
optimal solution makes the pipeline report success with that diet; with
minimum 1000 and total-quantity cap 1 instead, the built program is
infeasible and any sound backend makes the pipeline report success = false. -/
theorem C8_concrete_scenario :
    (build scenarioFN scenarioPrices [(("N" : Key), (20 : ℚ))] [] none =
      Except.ok scenarioInst) ∧
    (build scenarioFN scenarioPrices [(("N" : Key), (1000 : ℚ))] [] (some 1) =
      Except.ok scenarioInst2) ∧
    IsOptimalCanon scenarioInst [2, 0] ∧
    dotQ (lpCost scenarioInst) [2, 0] = 2 ∧
    (∀ x, IsOptimalCanon scenarioInst x → x = [2, 0]) ∧
    (∀ bk : Backend,
      (bk (lpCost scenarioInst) (lpAub scenarioInst)
        (lpBub scenarioInst)).success = true →
      IsOptimalCanon scenarioInst
        (bk (lpCost scenarioInst) (lpAub scenarioInst) (lpBub scenarioInst)).x →
      (solveWith bk scenarioInst).success = true ∧
      (solveWith bk scenarioInst).diet =
        [(("A" : Key), some (2 : ℚ)), (("B" : Key), some (0 : ℚ))]) ∧
    (∀ x, ¬ canonFeasible scenarioInst2 x) ∧
    (∀ bk : Backend, SoundBackend bk →
      (solveWith bk scenarioInst2).success = false) := by
  refine ⟨build_scenario1, build_scenario2, scenario_optimal, ?_,
    scenario_unique, ?_, scenario2_infeasible, ?_⟩
  · show (1 : ℚ) * 2 + ((2 : ℚ) * 0 + 0) = 2
    norm_num
  · intro bk hsucc hopt
    have hx : (bk (lpCost scenarioInst) (lpAub scenarioInst)
        (lpBub scenarioInst)).x = [2, 0] := scenario_unique _ hopt
    constructor
    · unfold solveWith
      dsimp only
      exact hsucc
    · unfold solveWith
      dsimp only
      rw [if_pos hsucc, hx]
      rfl
  · intro bk hsnd
    cases hsucc : (bk (lpCost scenarioInst2) (lpAub scenarioInst2)
        (lpBub scenarioInst2)).success with
    | false =>
      unfold solveWith
      dsimp only
      exact hsucc
    | true =>
      exfalso
      obtain ⟨y, hyl, hyn, hyf⟩ := hsnd _ _ _ hsucc
      exact scenario2_infeasible y
        ((scipyFeasible_iff_canonFeasible _ y).mp
          ⟨by rw [hyl]; decide, hyn, hyf⟩)

theorem C8_concrete_scenario_witness :
    (solveWith (fun _ _ _ =>
        { success := true, status := 0,
          message := ("Optimization terminated successfully."),
          x := [2, 0], objVal := 2 }) scenarioInst).success = true ∧
    (solveWith (fun _ _ _ =>
        { success := true, status := 0,
          message := ("Optimization terminated successfully."),
          x := [2, 0], objVal := 2 }) scenarioInst).diet =
      [(("A" : Key), some (2 : ℚ)), (("B" : Key), some (0 : ℚ))] :=
  C8_concrete_scenario.2.2.2.2.2.1 _ rfl C8_concrete_scenario.2.2.1

end DietLP
